import Mathlib

set_option maxRecDepth 8192

/-!
Verification of the request-processing core of an ESP32 IoT hub firmware
(`IotHub.ino`): the percent-decoder `deHex`/`fromHex`, the HTTP request-line
processor `processHeader` with its fixed-offset time-set parser, the
request-line accumulator from `loop`, the config-file reader `readKey`/`readln`,
and the station-mode boot check from `setup`.

C strings are modelled as `List Char`; the NUL terminator is modelled by the
end of the list (an explicit `nul` character is used where the code writes
`'\0'` into the middle of a buffer).  Machine `int` values are modelled as
`Int`.  File and serial side effects are modelled as explicit append-only
lists inside a `HubState`.
-/

/-- The NUL byte written by the code as a string terminator. -/
def nul : Char := Char.ofNat 0

/-- Line feed, the end-of-line byte recognised by `loop` and `readln`. -/
def cLF : Char := Char.ofNat 10

/-- Carriage return, ignored by `readln`. -/
def cCR : Char := Char.ofNat 13

/-- `(c >= ' ') && (c <= '~')`: printable-ASCII test used inside `deHex`. -/
def isPrintable (c : Char) : Bool :=
  decide (' '.toNat ≤ c.toNat ∧ c.toNat ≤ '~'.toNat)

/-- `(c >= '0') && (c <= '9')`: the decimal-digit test (first branch of
`fromHex`, also the digit test of `atoi`). -/
def isDigitC (c : Char) : Bool :=
  decide ('0'.toNat ≤ c.toNat ∧ c.toNat ≤ '9'.toNat)

/-- The whitespace set skipped by C `atoi` (`isspace`). -/
def isSpaceC (c : Char) : Bool :=
  c = ' ' || c = Char.ofNat 9 || c = cLF || c = Char.ofNat 11 ||
  c = Char.ofNat 12 || c = cCR

/-- `fromHex` from the source: convert a hex digit to its value, any other
character maps to 0. -/
def fromHex (c : Char) : Nat :=
  if isDigitC c then c.toNat - '0'.toNat
  else if decide ('A'.toNat ≤ c.toNat ∧ c.toNat ≤ 'F'.toNat) then
    c.toNat - 'A'.toNat + 10
  else if decide ('a'.toNat ≤ c.toNat ∧ c.toNat ≤ 'f'.toNat) then
    c.toNat - 'a'.toNat + 10
  else 0

/-- The loop of `deHex`, with `safectr` made explicit.  The C loop is
`while ((c = *p++) && (safectr-- > 0))`: a NUL ends the scan, then the safety
counter is tested and decremented; inside a `%` escape two further bytes are
read (each decrementing the counter and ending the scan if NUL); the decoded
value is `(fromHex(c1) << 4 + fromHex(c2)) & 0x7f` and is emitted only when
printable; a literal byte is emitted only when printable. -/
def deHexLoop (s : List Char) (safectr : Int) : List Char :=
  match s with
  | [] => []
  | c :: rest =>
    if c = nul then []
    else if safectr ≤ 0 then []
    else if c = '%' then
      match rest with
      | [] => []
      | c1 :: rest1 =>
        if c1 = nul then []
        else
          match rest1 with
          | [] => []
          | c2 :: rest2 =>
            if c2 = nul then []
            else
              let vc := (fromHex c1 * 16 + fromHex c2) % 128
              if 32 ≤ vc ∧ vc ≤ 126 then
                Char.ofNat vc :: deHexLoop rest2 (safectr - 3)
              else deHexLoop rest2 (safectr - 3)
    else
      if isPrintable c then c :: deHexLoop rest (safectr - 1)
      else deHexLoop rest (safectr - 1)

/-- `deHex` from the source: in-place URL unescaping with `safectr = 255`. -/
def deHex (s : List Char) : List Char := deHexLoop s 255

/-- Case-insensitive hex-digit test (used to state which escapes the
specification's decoding rule covers). -/
def isHexDigit (c : Char) : Bool :=
  isDigitC c || decide ('A'.toNat ≤ c.toNat ∧ c.toNat ≤ 'F'.toNat) ||
  decide ('a'.toNat ≤ c.toNat ∧ c.toNat ≤ 'f'.toNat)

/-- Value of a hex digit, as the specification's decoding rule reads
(`%XX` with hex digits, case-insensitive). -/
def hexVal (c : Char) : Nat :=
  if isDigitC c then c.toNat - 48
  else if decide ('A'.toNat ≤ c.toNat ∧ c.toNat ≤ 'F'.toNat) then c.toNat - 55
  else if decide ('a'.toNat ≤ c.toNat ∧ c.toNat ≤ 'f'.toNat) then c.toNat - 87
  else 0

/-- Modelled from the spec (for the refinement claims about the decoder):
each `%XX` escape is replaced by its value masked to 7 bits, any decoded or
literal byte outside `0x20..0x7E` is dropped, and decoding stops early when
an escape is incomplete at the end of the input.  No safety counter. -/
def claimDecode : List Char → List Char
  | [] => []
  | c :: rest =>
    if c = '%' then
      match rest with
      | c1 :: c2 :: rest2 =>
        let v := (hexVal c1 * 16 + hexVal c2) % 128
        if 32 ≤ v ∧ v ≤ 126 then Char.ofNat v :: claimDecode rest2
        else claimDecode rest2
      | _ => []
    else
      if isPrintable c then c :: claimDecode rest
      else claimDecode rest

/-- Every `%` in the input starts a two-hex-digit escape, except possibly an
incomplete escape at the very end (the domain the decoding rule of the
specification describes). -/
def escapesWF : List Char → Bool
  | [] => true
  | c :: rest =>
    if c = '%' then
      match rest with
      | c1 :: c2 :: rest2 => isHexDigit c1 && isHexDigit c2 && escapesWF rest2
      | _ => true
    else escapesWF rest

lemma fromHex_eq_hexVal (c : Char) : fromHex c = hexVal c := by
  have hA : 'A'.toNat = 65 := rfl
  have hF : 'F'.toNat = 70 := rfl
  have hb : 'a'.toNat = 97 := rfl
  have hf : 'f'.toNat = 102 := rfl
  have h0 : '0'.toNat = 48 := rfl
  unfold fromHex hexVal
  simp only [hA, hF, hb, hf, h0, decide_eq_true_eq]
  split_ifs <;> omega

lemma deHexLoop_eq_claimDecode :
    ∀ (n : Nat) (s : List Char) (ctr : Int), s.length ≤ n → (s.length : Int) ≤ ctr →
      nul ∉ s → escapesWF s = true → deHexLoop s ctr = claimDecode s := by
  intro n
  induction n with
  | zero =>
    intro s ctr hn _ _ _
    have hs : s = [] := List.eq_nil_of_length_eq_zero (Nat.le_zero.mp hn)
    subst hs; rfl
  | succ n ih =>
    intro s ctr hn hctr hnul hwf
    cases s with
    | nil => rfl
    | cons c rest =>
      have hcnul : ¬ c = nul := fun h => hnul (h ▸ List.mem_cons_self c rest)
      have hctr0 : ¬ ctr ≤ 0 := by
        have h1 : ((rest.length + 1 : Nat) : Int) ≤ ctr := by
          simpa using hctr
        push_cast at h1; omega
      by_cases hc : c = '%'
      · subst hc
        cases rest with
        | nil => simp [deHexLoop, claimDecode, hctr0]
        | cons c1 rest1 =>
          have hc1 : ¬ c1 = nul := fun h =>
            hnul (h ▸ List.mem_cons_of_mem _ (List.mem_cons_self c1 rest1))
          cases rest1 with
          | nil => simp [deHexLoop, claimDecode, hctr0, hc1]
          | cons c2 rest2 =>
            have hc2 : ¬ c2 = nul := fun h =>
              hnul (h ▸ List.mem_cons_of_mem _
                (List.mem_cons_of_mem _ (List.mem_cons_self c2 rest2)))
            have hwf' : escapesWF rest2 = true := by
              unfold escapesWF at hwf
              rw [if_pos rfl] at hwf
              simp only [Bool.and_eq_true] at hwf
              exact hwf.2
            have hrec : deHexLoop rest2 (ctr - 3) = claimDecode rest2 := by
              apply ih rest2 (ctr - 3)
              · simp at hn; omega
              · simp at hctr; omega
              · exact fun h => hnul (List.mem_cons_of_mem _
                  (List.mem_cons_of_mem _ (List.mem_cons_of_mem _ h)))
              · exact hwf'
            unfold deHexLoop claimDecode
            rw [if_neg hcnul, if_neg hctr0, if_pos rfl]
            simp only [hc1, hc2, if_false, fromHex_eq_hexVal, hrec, if_true]
      · have hrec : deHexLoop rest (ctr - 1) = claimDecode rest := by
          apply ih rest (ctr - 1)
          · simp at hn; omega
          · simp at hctr; omega
          · exact fun h => hnul (List.mem_cons_of_mem _ h)
          · unfold escapesWF at hwf
            rwa [if_neg hc] at hwf
        unfold deHexLoop claimDecode
        rw [if_neg hcnul, if_neg hctr0, if_neg hc, if_neg hc, hrec]

lemma deHexLoop_printable_id :
    ∀ (s : List Char) (ctr : Int), (s.length : Int) ≤ ctr →
      (∀ c ∈ s, isPrintable c = true) → ('%') ∉ s → deHexLoop s ctr = s := by
  intro s
  induction s with
  | nil => intro ctr _ _ _; rfl
  | cons c rest ih =>
    intro ctr hctr hpr hpc
    have hp : isPrintable c = true := hpr c (List.mem_cons_self c rest)
    have hcnul : ¬ c = nul := by
      intro h; subst h; exact absurd hp (by decide)
    have hctr0 : ¬ ctr ≤ 0 := by simp at hctr; omega
    have hc : ¬ c = '%' := fun h => hpc (h ▸ List.mem_cons_self c rest)
    unfold deHexLoop
    rw [if_neg hcnul, if_neg hctr0, if_neg hc, if_pos hp,
      ih (ctr - 1) (by simp at hctr; omega)
        (fun d hd => hpr d (List.mem_cons_of_mem _ hd))
        (fun h => hpc (List.mem_cons_of_mem _ h))]

/-- C6 (amended: restricted to inputs within the 255-byte safety bound of
`safectr`): for every nonempty-byte input of at most 255 bytes whose `%`
characters all start two-hex-digit escapes (except possibly an incomplete
escape at the end), `deHex` computes exactly the specification's decoding
rule: escapes are replaced by their 7-bit-masked value, bytes outside
`0x20..0x7E` are dropped, and an incomplete final escape truncates the
output; in particular `123%20ABC` decodes to `123 ABC` and `AB%2` to `AB`. -/
theorem c6_decoder_follows_rule :
    (∀ s : List Char, s.length ≤ 255 → nul ∉ s → escapesWF s = true →
      deHex s = claimDecode s) ∧
    deHex (("123%20ABC").toList) = ("123 ABC").toList ∧
    deHex (("AB%2").toList) = ("AB").toList := by
  refine ⟨fun s h1 h2 h3 => ?_, by decide, by decide⟩
  exact deHexLoop_eq_claimDecode 255 s 255 h1 (by exact_mod_cast h1) h2 h3

/-- C6 counterexample: for an input of 256 printable bytes containing no
escape at all, the decoder truncates the output to 255 bytes (the safety
counter), although no escape is incomplete at the end of the input — so the
claim is false for inputs beyond the safety bound. -/
theorem c6_counterexample :
    deHex (List.replicate 256 'A') = List.replicate 255 'A' ∧
    claimDecode (List.replicate 256 'A') = List.replicate 256 'A' ∧
    deHex (List.replicate 256 'A') ≠ claimDecode (List.replicate 256 'A') := by
  decide

/-- Witness for `c6_decoder_follows_rule` at a concrete input. -/
theorem c6_witness : deHex (("A%41z").toList) = claimDecode (("A%41z").toList) :=
  c6_decoder_follows_rule.1 (("A%41z").toList) (by decide) (by decide) (by decide)

/-- C8 (amended: restricted to inputs within the 255-byte safety bound of
`safectr`): on printable-ASCII input with no `%` character, `deHex` returns
the input unchanged, and hence is idempotent on such input. -/
theorem c8_plain_identity :
    ∀ s : List Char, s.length ≤ 255 → (∀ c ∈ s, isPrintable c = true) →
      ('%') ∉ s → deHex s = s ∧ deHex (deHex s) = deHex s := by
  intro s h1 h2 h3
  have hid : deHex s = s := deHexLoop_printable_id s 255 (by exact_mod_cast h1) h2 h3
  exact ⟨hid, by rw [hid, hid]⟩

/-- C8 counterexample: 256 printable bytes with no `%` are not returned
unchanged — the safety counter truncates the output to 255 bytes. -/
theorem c8_counterexample :
    (∀ c ∈ List.replicate 256 'B', isPrintable c = true) ∧
    ('%') ∉ List.replicate 256 'B' ∧
    deHex (List.replicate 256 'B') ≠ List.replicate 256 'B' := by
  decide

/-- Witness for `c8_plain_identity` at a concrete input. -/
theorem c8_witness :
    deHex (("ABC 123").toList) = ("ABC 123").toList ∧
    deHex (deHex (("ABC 123").toList)) = deHex (("ABC 123").toList) :=
  c8_plain_identity (("ABC 123").toList) (by decide) (by decide) (by decide)

/-- Digit-accumulation phase of C `atoi` (strtol base 10): consume decimal
digits, stopping at the first non-digit (a NUL cell stops it too, since NUL
is not a digit). -/
def atoiDigits (s : List Char) (acc : Int) : Int :=
  match s with
  | [] => acc
  | c :: rest => if isDigitC c then atoiDigits rest (acc * 10 + ((c.toNat : Int) - 48)) else acc

/-- Sign phase of C `atoi`: an optional `-` or `+` before the digits. -/
def atoiSigned (s : List Char) : Int :=
  match s with
  | [] => 0
  | c :: rest =>
    if c = '-' then - atoiDigits rest 0
    else if c = '+' then atoiDigits rest 0
    else atoiDigits (c :: rest) 0

/-- C `atoi`: skip leading whitespace, then optional sign, then digits;
0 when no digits are present. -/
def atoiChars (s : List Char) : Int := atoiSigned (s.dropWhile isSpaceC)

/-- `strncmp(buf, key, n) == 0` with `n = strlen(key)`: `key` is a prefix of
`buf`. -/
def strncmpEq : List Char → List Char → Bool
  | [], _ => true
  | _ :: _, [] => false
  | k :: ks, b :: bs => k = b && strncmpEq ks bs

/-- Index of the first occurrence of `needle` in `hay` (C `strstr`). -/
def strstrIdx (hay needle : List Char) : Option Nat :=
  match hay with
  | [] => if needle.isEmpty then some 0 else none
  | c :: t =>
    if strncmpEq needle (c :: t) then some 0
    else (strstrIdx t needle).map (· + 1)

/-- The query marker searched for by `processHeader`. -/
def logMarker : List Char := ("LOG=").toList

/-- The needle of `strstr(p, " ")`. -/
def spaceStr : List Char := [' ']

/-- The operational log message recording a command time correction. -/
def setTimeMsg : List Char := ("Set time").toList

/-- An instant held by the software clock: `rtc.setTime(sec,min,hr,day,mon,yr)`
stores these six fields; reading the clock back reports the same instant. -/
structure ClockInstant where
  year : Int
  month : Int
  day : Int
  hour : Int
  minute : Int
  second : Int
deriving DecidableEq

/-- Events printed to the serial port (the best-effort side channel):
`PRINTLN` of a log payload, `Serial.println(rtc.getDateTime())` after a
successful time set, and the `Set time failed ...` printf. -/
inductive SerialEv where
  | line (msg : List Char)
  | printTime (t : ClockInstant)
  | setTimeFailed (yr mon day hr min sec : Int)
deriving DecidableEq

/-- A line appended by `addLogLine`: the time-tag taken from the clock at
write time, plus the message payload. -/
structure LogEntry where
  ttag : ClockInstant
  payload : List Char
deriving DecidableEq

/-- The device state touched by `processHeader`: the software clock, the two
log files (`/iothub.log` operational, `/iotdata.log` telemetry) and the
serial side channel. -/
structure HubState where
  clock : ClockInstant
  opLog : List LogEntry
  iotLog : List LogEntry
  serial : List SerialEv
deriving DecidableEq

/-- `addLogLine(LOGFN, msg)`: time-tag with the current clock, echo to
serial, append to the operational log. -/
def addLogOp (st : HubState) (msg : List Char) : HubState :=
  { st with opLog := st.opLog ++ [⟨st.clock, msg⟩],
            serial := st.serial ++ [SerialEv.line msg] }

/-- `addLogLine(IOTFN, msg)`: time-tag with the current clock, echo to
serial, append to the telemetry log. -/
def addLogIot (st : HubState) (msg : List Char) : HubState :=
  { st with iotLog := st.iotLog ++ [⟨st.clock, msg⟩],
            serial := st.serial ++ [SerialEv.line msg] }

/-- The sanity check of `processHeader` on the six parsed time fields. -/
def saneTime (dyr dmon dday dhr dmin dsec : Int) : Prop :=
  (2024 ≤ dyr ∧ dyr ≤ 2099) ∧ (1 ≤ dmon ∧ dmon ≤ 12) ∧ (1 ≤ dday ∧ dday ≤ 31) ∧
  (0 ≤ dhr ∧ dhr ≤ 23) ∧ (0 ≤ dmin ∧ dmin ≤ 59) ∧ (0 ≤ dsec ∧ dsec ≤ 59)

instance (dyr dmon dday dhr dmin dsec : Int) :
    Decidable (saneTime dyr dmon dday dhr dmin dsec) := by
  unfold saneTime; infer_instance

/-- The fixed-offset `atoi` block of `processHeader`, acting on the buffer
cells that start right after the `~` (`p` in the code).  Each field is read
with `atoi(&p[k])` and then a NUL is written at `p[k]`, so later (lower
offset) fields stop at it.  Returned in code order:
`(dyr, dmon, dday, dhr, dmin, dsec)`. -/
def parseTimeFields (cells : List Char) : Int × Int × Int × Int × Int × Int :=
  let dsec := atoiChars (cells.drop 12)
  let cells1 := cells.set 12 nul
  let dmin := atoiChars (cells1.drop 10)
  let cells2 := cells1.set 10 nul
  let dhr := atoiChars (cells2.drop 8)
  let cells3 := cells2.set 8 nul
  let dday := atoiChars (cells3.drop 6)
  let cells4 := cells3.set 6 nul
  let dmon := atoiChars (cells4.drop 4)
  let cells5 := cells4.set 4 nul
  let dyr := atoiChars cells5
  (dyr, dmon, dday, dhr, dmin, dsec)

/-- `processHeader(hdr)`.  `hdr` is the accumulated request line (no `\n`);
`stale` models whatever bytes sit in the `httpHeader` array beyond the
line's terminating NUL (leftovers of earlier connections — the fixed-offset
`atoi` reads can run past the line's end).

Steps, mirroring the code: find `"LOG="` (`strstr`); find the next space
from there (`strstr(p, " ")`), which is overwritten with NUL; percent-decode
the value in place (`deHex`), which writes the decoded bytes followed by a
NUL back into the buffer, leaving the tail of the encoded text in place
after that NUL; append the decoded value to the telemetry log
unconditionally; if the decoded value starts with `~`, run the fixed-offset
parse over the buffer cells after the `~` and, if the sanity check passes,
set the clock and append an operational `Set time` line, else print a
`Set time failed` diagnostic to serial only. -/
def processHeader (hdr stale : List Char) (st : HubState) : HubState :=
  match strstrIdx hdr logMarker with
  | none => st
  | some i =>
    let tail := hdr.drop i
    match strstrIdx tail spaceStr with
    | none => st
    | some o =>
      let enc := (tail.drop 4).take (o - 4)
      let dec := deHex enc
      let st1 := addLogIot st dec
      match dec with
      | [] => st1
      | tc :: rest =>
        if tc = '~' then
          let cells := rest ++ nul ::
            ((enc ++ [nul]).drop (rest.length + 2) ++ (tail.drop (o + 1) ++ nul :: stale))
          match parseTimeFields cells with
          | (dyr, dmon, dday, dhr, dmin, dsec) =>
            if saneTime dyr dmon dday dhr dmin dsec then
              let st2 := { st1 with clock := ⟨dyr, dmon, dday, dhr, dmin, dsec⟩ }
              let st3 := { st2 with serial := st2.serial ++ [SerialEv.printTime st2.clock] }
              addLogOp st3 setTimeMsg
            else
              { st1 with serial := st1.serial ++
                  [SerialEv.setTimeFailed dyr dmon dday dhr dmin dsec] }
        else st1

/-- The state right after `setup()`: clock seeded to 12:00:00 2024-01-01,
all logs empty. -/
def st0 : HubState := ⟨⟨2024, 1, 1, 12, 0, 0⟩, [], [], []⟩

/-- Numeric value of a decimal digit character, as `Int`. -/
def dvalI (c : Char) : Int := (c.toNat : Int) - 48

/-- Value of two decimal digit characters. -/
def twoDigitsI (a b : Char) : Int := 10 * dvalI a + dvalI b

/-- Value of four decimal digit characters. -/
def fourDigitsI (a b e f : Char) : Int :=
  1000 * dvalI a + 100 * dvalI b + 10 * dvalI e + dvalI f

lemma digitC_ne {c : Char} (h : isDigitC c = true) {d : Char}
    (hd : d.toNat < 48 ∨ 57 < d.toNat) : ¬ c = d := by
  intro he
  have h' := of_decide_eq_true h
  rw [show '0'.toNat = 48 from rfl, show '9'.toNat = 57 from rfl, he] at h'
  omega

lemma digit_not_space {c : Char} (h : isDigitC c = true) : isSpaceC c = false := by
  unfold isSpaceC
  simp [digitC_ne h (by decide : (' ').toNat < 48 ∨ 57 < (' ').toNat),
    digitC_ne h (by decide : (Char.ofNat 9).toNat < 48 ∨ 57 < (Char.ofNat 9).toNat),
    digitC_ne h (by decide : cLF.toNat < 48 ∨ 57 < cLF.toNat),
    digitC_ne h (by decide : (Char.ofNat 11).toNat < 48 ∨ 57 < (Char.ofNat 11).toNat),
    digitC_ne h (by decide : (Char.ofNat 12).toNat < 48 ∨ 57 < (Char.ofNat 12).toNat),
    digitC_ne h (by decide : cCR.toNat < 48 ∨ 57 < cCR.toNat)]

lemma atoiSigned_cons (c : Char) (rest : List Char) :
    atoiSigned (c :: rest) =
      if c = '-' then - atoiDigits rest 0
      else if c = '+' then atoiDigits rest 0
      else atoiDigits (c :: rest) 0 := rfl

lemma atoiDigits_cons (c : Char) (rest : List Char) (acc : Int) :
    atoiDigits (c :: rest) acc =
      if isDigitC c then atoiDigits rest (acc * 10 + ((c.toNat : Int) - 48)) else acc := rfl

lemma atoiChars_two (a b : Char) (t : List Char) (ha : isDigitC a = true)
    (hb : isDigitC b = true) :
    atoiChars (a :: b :: nul :: t) = twoDigitsI a b := by
  unfold atoiChars
  rw [List.dropWhile_cons_of_neg (by simp [digit_not_space ha])]
  rw [atoiSigned_cons]
  rw [if_neg (digitC_ne ha (by decide : ('-').toNat < 48 ∨ 57 < ('-').toNat)),
    if_neg (digitC_ne ha (by decide : ('+').toNat < 48 ∨ 57 < ('+').toNat))]
  rw [atoiDigits_cons]
  rw [if_pos ha]
  rw [atoiDigits_cons]
  rw [if_pos hb]
  rw [atoiDigits_cons]
  rw [if_neg (by decide : ¬ isDigitC nul = true)]
  unfold twoDigitsI dvalI
  ring

lemma atoiChars_four (a b e f : Char) (t : List Char) (ha : isDigitC a = true)
    (hb : isDigitC b = true) (he : isDigitC e = true) (hf : isDigitC f = true) :
    atoiChars (a :: b :: e :: f :: nul :: t) = fourDigitsI a b e f := by
  unfold atoiChars
  rw [List.dropWhile_cons_of_neg (by simp [digit_not_space ha])]
  rw [atoiSigned_cons]
  rw [if_neg (digitC_ne ha (by decide : ('-').toNat < 48 ∨ 57 < ('-').toNat)),
    if_neg (digitC_ne ha (by decide : ('+').toNat < 48 ∨ 57 < ('+').toNat))]
  rw [atoiDigits_cons]
  rw [if_pos ha]
  rw [atoiDigits_cons]
  rw [if_pos hb]
  rw [atoiDigits_cons]
  rw [if_pos he]
  rw [atoiDigits_cons]
  rw [if_pos hf]
  rw [atoiDigits_cons]
  rw [if_neg (by decide : ¬ isDigitC nul = true)]
  unfold fourDigitsI dvalI
  ring

lemma parseTimeFields_explicit
    (a0 a1 a2 a3 a4 a5 a6 a7 a8 a9 a10 a11 a12 a13 : Char) (t : List Char)
    (h0 : isDigitC a0 = true) (h1 : isDigitC a1 = true) (h2 : isDigitC a2 = true)
    (h3 : isDigitC a3 = true) (h4 : isDigitC a4 = true) (h5 : isDigitC a5 = true)
    (h6 : isDigitC a6 = true) (h7 : isDigitC a7 = true) (h8 : isDigitC a8 = true)
    (h9 : isDigitC a9 = true) (h10 : isDigitC a10 = true) (h11 : isDigitC a11 = true)
    (h12 : isDigitC a12 = true) (h13 : isDigitC a13 = true) :
    parseTimeFields (a0 :: a1 :: a2 :: a3 :: a4 :: a5 :: a6 :: a7 :: a8 :: a9 ::
        a10 :: a11 :: a12 :: a13 :: nul :: t) =
      (fourDigitsI a0 a1 a2 a3, twoDigitsI a4 a5, twoDigitsI a6 a7,
       twoDigitsI a8 a9, twoDigitsI a10 a11, twoDigitsI a12 a13) := by
  unfold parseTimeFields
  have e0 : List.drop 12 (a0 :: a1 :: a2 :: a3 :: a4 :: a5 :: a6 :: a7 :: a8 :: a9 ::
      a10 :: a11 :: a12 :: a13 :: nul :: t) = a12 :: a13 :: nul :: t := rfl
  have s1 : List.set (a0 :: a1 :: a2 :: a3 :: a4 :: a5 :: a6 :: a7 :: a8 :: a9 ::
      a10 :: a11 :: a12 :: a13 :: nul :: t) 12 nul =
      a0 :: a1 :: a2 :: a3 :: a4 :: a5 :: a6 :: a7 :: a8 :: a9 ::
      a10 :: a11 :: nul :: a13 :: nul :: t := rfl
  have e1 : List.drop 10 (a0 :: a1 :: a2 :: a3 :: a4 :: a5 :: a6 :: a7 :: a8 :: a9 ::
      a10 :: a11 :: nul :: a13 :: nul :: t) = a10 :: a11 :: nul :: a13 :: nul :: t := rfl
  have s2 : List.set (a0 :: a1 :: a2 :: a3 :: a4 :: a5 :: a6 :: a7 :: a8 :: a9 ::
      a10 :: a11 :: nul :: a13 :: nul :: t) 10 nul =
      a0 :: a1 :: a2 :: a3 :: a4 :: a5 :: a6 :: a7 :: a8 :: a9 ::
      nul :: a11 :: nul :: a13 :: nul :: t := rfl
  have e2 : List.drop 8 (a0 :: a1 :: a2 :: a3 :: a4 :: a5 :: a6 :: a7 :: a8 :: a9 ::
      nul :: a11 :: nul :: a13 :: nul :: t) = a8 :: a9 :: nul :: a11 :: nul :: a13 :: nul :: t := rfl
  have s3 : List.set (a0 :: a1 :: a2 :: a3 :: a4 :: a5 :: a6 :: a7 :: a8 :: a9 ::
      nul :: a11 :: nul :: a13 :: nul :: t) 8 nul =
      a0 :: a1 :: a2 :: a3 :: a4 :: a5 :: a6 :: a7 :: nul :: a9 ::
      nul :: a11 :: nul :: a13 :: nul :: t := rfl
  have e3 : List.drop 6 (a0 :: a1 :: a2 :: a3 :: a4 :: a5 :: a6 :: a7 :: nul :: a9 ::
      nul :: a11 :: nul :: a13 :: nul :: t) = a6 :: a7 :: nul :: a9 :: nul :: a11 :: nul :: a13 :: nul :: t := rfl
  have s4 : List.set (a0 :: a1 :: a2 :: a3 :: a4 :: a5 :: a6 :: a7 :: nul :: a9 ::
      nul :: a11 :: nul :: a13 :: nul :: t) 6 nul =
      a0 :: a1 :: a2 :: a3 :: a4 :: a5 :: nul :: a7 :: nul :: a9 ::
      nul :: a11 :: nul :: a13 :: nul :: t := rfl
  have e4 : List.drop 4 (a0 :: a1 :: a2 :: a3 :: a4 :: a5 :: nul :: a7 :: nul :: a9 ::
      nul :: a11 :: nul :: a13 :: nul :: t) = a4 :: a5 :: nul :: a7 :: nul :: a9 :: nul :: a11 :: nul :: a13 :: nul :: t := rfl
  have s5 : List.set (a0 :: a1 :: a2 :: a3 :: a4 :: a5 :: nul :: a7 :: nul :: a9 ::
      nul :: a11 :: nul :: a13 :: nul :: t) 4 nul =
      a0 :: a1 :: a2 :: a3 :: nul :: a5 :: nul :: a7 :: nul :: a9 ::
      nul :: a11 :: nul :: a13 :: nul :: t := rfl
  simp only [e0, s1, e1, s2, e2, s3, e3, s4, e4, s5,
    atoiChars_two a12 a13 t h12 h13,
    atoiChars_two a10 a11 (a13 :: nul :: t) h10 h11,
    atoiChars_two a8 a9 (a11 :: nul :: a13 :: nul :: t) h8 h9,
    atoiChars_two a6 a7 (a9 :: nul :: a11 :: nul :: a13 :: nul :: t) h6 h7,
    atoiChars_two a4 a5 (a7 :: nul :: a9 :: nul :: a11 :: nul :: a13 :: nul :: t) h4 h5,
    atoiChars_four a0 a1 a2 a3
      (a5 :: nul :: a7 :: nul :: a9 :: nul :: a11 :: nul :: a13 :: nul :: t) h0 h1 h2 h3]

/-- C1: for every completed request line whose `LOG=` value percent-decodes
to `~` followed by exactly 14 digits whose fields are all in range
(year 2024-2099, month 1-12, day 1-31, hour 0-23, minute 0-59, second 0-59),
`processHeader` sets the clock to exactly that instant and appends exactly
one operational log line (`Set time`) recording the correction. -/
theorem c1_valid_time_set
    (hdr stale : List Char) (st : HubState) (i o : Nat)
    (a0 a1 a2 a3 a4 a5 a6 a7 a8 a9 a10 a11 a12 a13 : Char)
    (hm : strstrIdx hdr logMarker = some i)
    (hs : strstrIdx (hdr.drop i) spaceStr = some o)
    (hd : deHex (((hdr.drop i).drop 4).take (o - 4)) =
      '~' :: [a0, a1, a2, a3, a4, a5, a6, a7, a8, a9, a10, a11, a12, a13])
    (hdig : ([a0, a1, a2, a3, a4, a5, a6, a7, a8, a9, a10, a11, a12, a13]).all isDigitC = true)
    (hok : saneTime (fourDigitsI a0 a1 a2 a3) (twoDigitsI a4 a5) (twoDigitsI a6 a7)
      (twoDigitsI a8 a9) (twoDigitsI a10 a11) (twoDigitsI a12 a13)) :
    (processHeader hdr stale st).clock =
      ⟨fourDigitsI a0 a1 a2 a3, twoDigitsI a4 a5, twoDigitsI a6 a7,
       twoDigitsI a8 a9, twoDigitsI a10 a11, twoDigitsI a12 a13⟩ ∧
    (processHeader hdr stale st).opLog = st.opLog ++
      [⟨⟨fourDigitsI a0 a1 a2 a3, twoDigitsI a4 a5, twoDigitsI a6 a7,
         twoDigitsI a8 a9, twoDigitsI a10 a11, twoDigitsI a12 a13⟩, setTimeMsg⟩] := by
  simp only [List.all_cons, List.all_nil, Bool.and_eq_true, Bool.and_true] at hdig
  obtain ⟨h0, h1, h2, h3, h4, h5, h6, h7, h8, h9, h10, h11, h12, h13⟩ := hdig
  unfold processHeader
  simp only [hm, hs, hd]
  simp only [List.cons_append, List.nil_append, List.length_cons, List.length_nil,
    Nat.reduceAdd, if_true]
  rw [parseTimeFields_explicit a0 a1 a2 a3 a4 a5 a6 a7 a8 a9 a10 a11 a12 a13 _
    h0 h1 h2 h3 h4 h5 h6 h7 h8 h9 h10 h11 h12 h13]
  simp only [Prod.fst, Prod.snd]
  rw [if_pos hok]
  simp [addLogOp, addLogIot]

/-- Witness for `c1_valid_time_set` on the request line
`GET /?LOG=~20240112201101 HTTP/1.1` from the boot state. -/
theorem c1_witness :
    (processHeader (("GET /?LOG=~20240112201101 HTTP/1.1").toList) [] st0).clock =
      ⟨2024, 1, 12, 20, 11, 1⟩ ∧
    (processHeader (("GET /?LOG=~20240112201101 HTTP/1.1").toList) [] st0).opLog =
      [⟨⟨2024, 1, 12, 20, 11, 1⟩, setTimeMsg⟩] := by
  have h := c1_valid_time_set (("GET /?LOG=~20240112201101 HTTP/1.1").toList) [] st0 6 19
    '2' '0' '2' '4' '0' '1' '1' '2' '2' '0' '1' '1' '0' '1'
    (by decide) (by decide) (by decide) (by decide) (by decide)
  simpa using h

/-- C2: for every `LOG=` value that percent-decodes to `~` plus 14 digit
characters in which some field is out of range, `processHeader` leaves the
clock unchanged, appends no operational log line, and reports the failure
only to the serial side channel (besides the unconditional telemetry echo of
the value). -/
theorem c2_invalid_time_rejected
    (hdr stale : List Char) (st : HubState) (i o : Nat)
    (a0 a1 a2 a3 a4 a5 a6 a7 a8 a9 a10 a11 a12 a13 : Char)
    (hm : strstrIdx hdr logMarker = some i)
    (hs : strstrIdx (hdr.drop i) spaceStr = some o)
    (hd : deHex (((hdr.drop i).drop 4).take (o - 4)) =
      '~' :: [a0, a1, a2, a3, a4, a5, a6, a7, a8, a9, a10, a11, a12, a13])
    (hdig : ([a0, a1, a2, a3, a4, a5, a6, a7, a8, a9, a10, a11, a12, a13]).all isDigitC = true)
    (hbad : ¬ saneTime (fourDigitsI a0 a1 a2 a3) (twoDigitsI a4 a5) (twoDigitsI a6 a7)
      (twoDigitsI a8 a9) (twoDigitsI a10 a11) (twoDigitsI a12 a13)) :
    (processHeader hdr stale st).clock = st.clock ∧
    (processHeader hdr stale st).opLog = st.opLog ∧
    (processHeader hdr stale st).serial = st.serial ++
      [SerialEv.line ('~' :: [a0, a1, a2, a3, a4, a5, a6, a7, a8, a9, a10, a11, a12, a13]),
       SerialEv.setTimeFailed (fourDigitsI a0 a1 a2 a3) (twoDigitsI a4 a5) (twoDigitsI a6 a7)
         (twoDigitsI a8 a9) (twoDigitsI a10 a11) (twoDigitsI a12 a13)] := by
  simp only [List.all_cons, List.all_nil, Bool.and_eq_true, Bool.and_true] at hdig
  obtain ⟨h0, h1, h2, h3, h4, h5, h6, h7, h8, h9, h10, h11, h12, h13⟩ := hdig
  unfold processHeader
  simp only [hm, hs, hd]
  simp only [List.cons_append, List.nil_append, List.length_cons, List.length_nil,
    Nat.reduceAdd, if_true]
  rw [parseTimeFields_explicit a0 a1 a2 a3 a4 a5 a6 a7 a8 a9 a10 a11 a12 a13 _
    h0 h1 h2 h3 h4 h5 h6 h7 h8 h9 h10 h11 h12 h13]
  simp only [Prod.fst, Prod.snd]
  rw [if_neg hbad]
  simp [addLogIot]

/-- Witness for `c2_invalid_time_rejected` on the request line
`GET /?LOG=~20241301000000 HTTP/1.1` (month 13) from the boot state. -/
theorem c2_witness :
    (processHeader (("GET /?LOG=~20241301000000 HTTP/1.1").toList) [] st0).clock = st0.clock ∧
    (processHeader (("GET /?LOG=~20241301000000 HTTP/1.1").toList) [] st0).opLog = [] ∧
    (processHeader (("GET /?LOG=~20241301000000 HTTP/1.1").toList) [] st0).serial =
      [SerialEv.line (("~20241301000000").toList),
       SerialEv.setTimeFailed 2024 13 1 0 0 0] := by
  have h := c2_invalid_time_rejected (("GET /?LOG=~20241301000000 HTTP/1.1").toList) [] st0 6 19
    '2' '0' '2' '4' '1' '3' '0' '1' '0' '0' '0' '0' '0' '0'
    (by decide) (by decide) (by decide) (by decide) (by decide)
  simpa using h

/-- C3: for every completed request line containing `LOG=` with a space
somewhere after it, exactly one telemetry log line is appended, whose
payload is the percent-decoded value (the text between `LOG=` and the next
space) — unconditionally, in every branch of the time-set path. -/
theorem c3_telemetry_unconditional
    (hdr stale : List Char) (st : HubState) (i o : Nat)
    (hm : strstrIdx hdr logMarker = some i)
    (hs : strstrIdx (hdr.drop i) spaceStr = some o) :
    (processHeader hdr stale st).iotLog = st.iotLog ++
      [⟨st.clock, deHex (((hdr.drop i).drop 4).take (o - 4))⟩] := by
  unfold processHeader
  simp only [hm, hs]
  split
  · simp [addLogIot]
  · split
    · split
      · simp [addLogIot, addLogOp]
      · simp [addLogIot]
    · simp [addLogIot]

/-- Witness for `c3_telemetry_unconditional` on
`GET /?LOG=123%20ABC HTTP/1.1` from the boot state. -/
theorem c3_witness :
    (processHeader (("GET /?LOG=123%20ABC HTTP/1.1").toList) [] st0).iotLog =
      [⟨st0.clock, ("123 ABC").toList⟩] := by
  have h := c3_telemetry_unconditional (("GET /?LOG=123%20ABC HTTP/1.1").toList) [] st0 6 13
    (by decide) (by decide)
  simpa using h

/-- C10: a completed request line that contains `LOG=` but no space
character at or after it is processed with no effect at all: no telemetry
line, no operational line, no clock change, nothing on serial. -/
theorem c10_no_space_no_effect
    (hdr stale : List Char) (st : HubState) (i : Nat)
    (hm : strstrIdx hdr logMarker = some i)
    (hs : strstrIdx (hdr.drop i) spaceStr = none) :
    processHeader hdr stale st = st := by
  unfold processHeader
  simp only [hm, hs]

/-- Witness for `c10_no_space_no_effect` on the line `GET /?LOG=abc`
(no space after the marker). -/
theorem c10_witness :
    processHeader (("GET /?LOG=abc").toList) [] st0 = st0 :=
  c10_no_space_no_effect (("GET /?LOG=abc").toList) [] st0 6 (by decide) (by decide)

/-- C5 is violated by the code: on `GET /?LOG=~2024%31 HTTP/1.1` the value
decodes to `~20241` — only 5 characters after the `~`, far fewer than 14 —
yet the fixed-offset `atoi` reads run past the decoded value's terminator
into the leftover encoded bytes of the buffer, every field passes the
sanity check, and the clock is set to 2024-01-01 00:00:00. -/
theorem c5_short_value_still_sets_clock :
    deHex (((("GET /?LOG=~2024%31 HTTP/1.1").toList.drop 6).drop 4).take 8) =
      '~' :: ("20241").toList ∧
    (processHeader (("GET /?LOG=~2024%31 HTTP/1.1").toList) [] st0).clock =
      ⟨2024, 1, 1, 0, 0, 0⟩ ∧
    (processHeader (("GET /?LOG=~2024%31 HTTP/1.1").toList) [] st0).clock ≠ st0.clock := by
  decide

/-- `ERR_NOWIFI` from the source. -/
def ERR_NOWIFI : Nat := 2

/-- Possible outcomes of `setup()`: invoke the fatal blink indicator (which
never returns) or fall through to the scheduler `loop()`. -/
inductive BootOutcome where
  | fatal (code : Nat)
  | scheduler
deriving DecidableEq

/-- The condition actually evaluated by `if (!connectToWiFi) blink(ERR_NOWIFI);`
in `setup()`: `connectToWiFi` without parentheses denotes the function
pointer, which is never null, so the test is constantly false. -/
def connectToWiFiPtrIsNull : Bool := false

/-- The station-mode tail of `setup()`: `connectToWiFi()` is called (the
association outcome is the parameter, which the subsequent test does not
consult), then `if (!connectToWiFi) blink(ERR_NOWIFI);` — negating the
function pointer, not the call result — then execution falls through to
`getNtpTime`, server startup and the scheduler `loop()`. -/
def stationBoot (_wifiConnected : Bool) : BootOutcome :=
  if connectToWiFiPtrIsNull then BootOutcome.fatal ERR_NOWIFI
  else BootOutcome.scheduler

/-- C4 is violated by the code: when WiFi association fails in station mode
(`connectToWiFi()` returns 0), the fatal indicator is *not* invoked — the
test `!connectToWiFi` negates the (never-null) function pointer instead of
the call result — and the device proceeds to the scheduler loop. -/
theorem c4_wifi_failure_reaches_scheduler :
    stationBoot false = BootOutcome.scheduler ∧
    stationBoot false ≠ BootOutcome.fatal ERR_NOWIFI :=
  ⟨rfl, by decide⟩

/-- `HTTPHEADERMAXLEN` from the source. -/
def HTTPHEADERMAXLEN : Nat := 256

/-- One byte of request-line accumulation in `loop`: a newline completes the
line (which is then processed and the connection closed); any other byte is
appended only while `httpHeaderPtr < HTTPHEADERMAXLEN - 1` (the slot after
the content always holds the NUL terminator), otherwise it is silently
dropped. -/
def feedChar (buf : List Char) (c : Char) : List Char × Option (List Char) :=
  if c = cLF then (buf, some buf)
  else if buf.length < HTTPHEADERMAXLEN - 1 then (buf ++ [c], none)
  else (buf, none)

/-- Byte-at-a-time accumulation for one connection, stopping at the first
newline, at which point the completed (possibly truncated) line is handed
to `processHeader`. -/
def accumulate : List Char → List Char → List Char × Option (List Char)
  | buf, [] => (buf, none)
  | buf, c :: rest =>
    match feedChar buf c with
    | (b, some line) => (b, some line)
    | (b, none) => accumulate b rest

lemma accumulate_length :
    ∀ (input buf : List Char), buf.length ≤ 255 →
      ((accumulate buf input).1).length ≤ 255 := by
  intro input
  induction input with
  | nil => intro buf h; exact h
  | cons c rest ih =>
    intro buf h
    unfold accumulate feedChar
    by_cases hc : c = cLF
    · simp [hc, h]
    · rw [if_neg hc]
      by_cases hlen : buf.length < HTTPHEADERMAXLEN - 1
      · rw [if_pos hlen]
        exact ih (buf ++ [c]) (by simp; unfold HTTPHEADERMAXLEN at hlen; omega)
      · rw [if_neg hlen]
        exact ih buf h

lemma accumulate_complete :
    ∀ (input buf : List Char), buf.length ≤ 255 → cLF ∉ input →
      accumulate buf (input ++ [cLF]) =
        ((buf ++ input).take 255, some ((buf ++ input).take 255)) := by
  intro input
  induction input with
  | nil =>
    intro buf h _
    have ht : (buf ++ []).take 255 = buf := by
      simp [List.take_of_length_le h]
    rw [ht]
    simp [accumulate, feedChar]
  | cons c rest ih =>
    intro buf h hni
    have hc : ¬ c = cLF := fun hx => hni (hx ▸ List.mem_cons_self c rest)
    have hni' : cLF ∉ rest := fun hx => hni (List.mem_cons_of_mem _ hx)
    rw [List.cons_append]
    unfold accumulate feedChar
    rw [if_neg hc]
    by_cases hlen : buf.length < HTTPHEADERMAXLEN - 1
    · rw [if_pos hlen]
      have := ih (buf ++ [c]) (by simp; unfold HTTPHEADERMAXLEN at hlen; omega) hni'
      simpa [List.append_assoc] using this
    · rw [if_neg hlen]
      have h255 : buf.length = 255 := by unfold HTTPHEADERMAXLEN at hlen; omega
      have e1 : (buf ++ rest).take 255 = buf := by
        rw [List.take_append_eq_append_take, h255]
        simp [List.take_of_length_le (le_of_eq h255)]
      have e2 : (buf ++ c :: rest).take 255 = buf := by
        rw [List.take_append_eq_append_take, h255]
        simp [List.take_of_length_le (le_of_eq h255)]
      simp only [ih buf h hni', e1, e2]

/-- C7: request-line accumulation never grows the stored line past
`HTTPHEADERMAXLEN - 1` content bytes (so the write of the NUL terminator at
index `httpHeaderPtr` stays inside the 256-byte array and bytes arriving at
capacity are silently dropped), and a newline still completes and delivers
the — possibly truncated to the first 255 bytes — line for processing
rather than rejecting it. -/
theorem c7_bounded_accumulation :
    (∀ (input buf : List Char), buf.length ≤ HTTPHEADERMAXLEN - 1 →
      ((accumulate buf input).1).length ≤ HTTPHEADERMAXLEN - 1) ∧
    (∀ input : List Char, cLF ∉ input →
      accumulate [] (input ++ [cLF]) =
        (input.take (HTTPHEADERMAXLEN - 1), some (input.take (HTTPHEADERMAXLEN - 1)))) := by
  constructor
  · intro input buf h
    exact accumulate_length input buf h
  · intro input hni
    have := accumulate_complete input [] (by simp) hni
    simpa using this

/-- Witness for `c7_bounded_accumulation` on a short request line. -/
theorem c7_witness :
    accumulate [] ((("GET /?LOG=1 HTTP/1.1").toList) ++ [cLF]) =
      (("GET /?LOG=1 HTTP/1.1").toList, some (("GET /?LOG=1 HTTP/1.1").toList)) := by
  have h := c7_bounded_accumulation.2 (("GET /?LOG=1 HTTP/1.1").toList) (by decide)
  rw [h]
  decide

/-- `readln(finp, buf, maxlen)` with `maxlen = 127`, i.e. a capacity of 126
content bytes (`len < maxlen-1`).  Arguments: remaining stream, remaining
capacity (`maxlen - 1 - len`), accumulated line.  A CR is skipped without
being stored or counted, an LF ends the line successfully, end of stream
ends the read with an EOF result (`readln` returns `!eof`), any other byte
is stored.  Returns `(line, rest-of-stream, !eof)`. -/
def readlnAux : List Char → Nat → List Char → List Char × List Char × Bool
  | s, 0, acc => (acc, s, true)
  | [], _ + 1, acc => (acc, [], false)
  | c :: rest, cap + 1, acc =>
    if c = cCR then readlnAux rest (cap + 1) acc
    else if c = cLF then (acc, rest, true)
    else readlnAux rest cap (acc ++ [c])

lemma readlnAux_consumes :
    ∀ (s : List Char) (cap : Nat) (acc : List Char), 0 < cap →
      (readlnAux s cap acc).2.2 = true → (readlnAux s cap acc).2.1.length < s.length := by
  intro s
  induction s with
  | nil =>
    intro cap acc hcap h
    obtain ⟨k, rfl⟩ : ∃ k, cap = k + 1 := ⟨cap - 1, by omega⟩
    simp [readlnAux] at h
  | cons c rest ih =>
    intro cap acc hcap h
    obtain ⟨k, rfl⟩ : ∃ k, cap = k + 1 := ⟨cap - 1, by omega⟩
    unfold readlnAux at h ⊢
    by_cases hcr : c = cCR
    · rw [if_pos hcr] at h ⊢
      exact Nat.lt_trans (ih (k + 1) acc (by omega) h) (Nat.lt_succ_self _)
    · rw [if_neg hcr] at h ⊢
      by_cases hlf : c = cLF
      · rw [if_pos hlf] at h ⊢
        simp
      · rw [if_neg hlf] at h ⊢
        rcases Nat.eq_zero_or_pos k with hk | hk
        · subst hk
          simp [readlnAux]
        · exact Nat.lt_trans (ih k (acc ++ [c]) hk h) (Nat.lt_succ_self _)

/-- The scan loop of `readKey`: `while (readln(finp, buf, 127))`, checking
`strncmp(buf, key, strlen(key)) == 0` on each completed line; on the first
match, `strncpy(outbuf, &buf[n], maxlen)` copies the remainder (truncated to
`maxlen`) and the loop breaks.  A line on which `readln` reports EOF is not
examined, and the result is the (still empty) output buffer. -/
def readKeyLoop (s key : List Char) (maxlen : Nat) : List Char :=
  let r := readlnAux s 126 []
  if _h : r.2.2 = true then
    if strncmpEq key r.1 then (r.1.drop key.length).take maxlen
    else readKeyLoop r.2.1 key maxlen
  else []
termination_by s.length
decreasing_by
  exact readlnAux_consumes s 126 [] (by omega) _h

/-- `readKey(configFn, key, outbuf, maxlen)`: empty result when the
configuration resource cannot be opened, otherwise the scan loop.  (The
`configFn` parameter of the C function is ignored — the code always opens
`CONFIGFN` — so it does not appear here.) -/
def readKey (canOpen : Bool) (content key : List Char) (maxlen : Nat) : List Char :=
  if canOpen then readKeyLoop content key maxlen else []

/-- Modelled from the spec (for the refinement claim about config lookup):
the value returned is the remainder, after the key prefix, of the first
line whose prefix equals the caller-supplied key; empty when no line
matches. -/
def specConfigLookup (ls : List (List Char)) (key : List Char) : List Char :=
  match ls with
  | [] => []
  | l :: rest =>
    if l.take key.length = key then l.drop key.length else specConfigLookup rest key

/-- Newline-terminated serialization of a sequence of lines. -/
def joinLines (ls : List (List Char)) : List Char :=
  ls.foldr (fun l acc => l ++ cLF :: acc) []

lemma strncmpEq_iff (k : List Char) :
    ∀ l : List Char, strncmpEq k l = true ↔ l.take k.length = k := by
  induction k with
  | nil => intro l; simp [strncmpEq]
  | cons a ks ih =>
    intro l
    cases l with
    | nil => simp [strncmpEq]
    | cons b bs =>
      simp only [strncmpEq, Bool.and_eq_true, decide_eq_true_eq, List.length_cons,
        List.take_succ_cons, List.cons.injEq, ih bs]
      tauto

lemma readlnAux_line :
    ∀ (l : List Char) (cap : Nat) (acc rest : List Char), l.length < cap →
      cLF ∉ l → cCR ∉ l →
      readlnAux (l ++ cLF :: rest) cap acc = (acc ++ l, rest, true) := by
  intro l
  induction l with
  | nil =>
    intro cap acc rest hcap _ _
    obtain ⟨k, rfl⟩ : ∃ k, cap = k + 1 := ⟨cap - 1, by omega⟩
    simp [readlnAux, show ¬ cLF = cCR by decide]
  | cons a l' ih =>
    intro cap acc rest hcap hlf hcr
    obtain ⟨k, rfl⟩ : ∃ k, cap = k + 1 := ⟨cap - 1, by omega⟩
    have ha1 : ¬ a = cCR := fun h => hcr (h ▸ List.mem_cons_self a l')
    have ha2 : ¬ a = cLF := fun h => hlf (h ▸ List.mem_cons_self a l')
    rw [List.cons_append]
    unfold readlnAux
    rw [if_neg ha1, if_neg ha2,
      ih k (acc ++ [a]) rest (by simp at hcap; omega)
        (fun h => hlf (List.mem_cons_of_mem _ h))
        (fun h => hcr (List.mem_cons_of_mem _ h))]
    simp

lemma readKeyLoop_joined :
    ∀ (lines : List (List Char)) (key : List Char) (maxlen : Nat),
      (∀ l ∈ lines, l.length ≤ 125 ∧ cLF ∉ l ∧ cCR ∉ l) →
      (∀ l ∈ lines, l.length ≤ key.length + maxlen) →
      readKeyLoop (joinLines lines) key maxlen = specConfigLookup lines key := by
  intro lines
  induction lines with
  | nil =>
    intro key maxlen _ _
    unfold readKeyLoop
    simp [joinLines, readlnAux, specConfigLookup]
  | cons l rest ih =>
    intro key maxlen hline hfit
    have hl := hline l (List.mem_cons_self l rest)
    have hjoin : joinLines (l :: rest) = l ++ cLF :: joinLines rest := rfl
    rw [hjoin]
    unfold readKeyLoop
    rw [readlnAux_line l 126 [] (joinLines rest) (by omega) hl.2.1 hl.2.2]
    simp only [List.nil_append]
    by_cases hm : strncmpEq key l = true
    · rw [dif_pos trivial, if_pos hm]
      unfold specConfigLookup
      rw [if_pos ((strncmpEq_iff key l).mp hm)]
      apply List.take_of_length_le
      have := hfit l (List.mem_cons_self l rest)
      simp only [List.length_drop]
      omega
    · rw [dif_pos trivial, if_neg hm]
      unfold specConfigLookup
      rw [if_neg (fun h => hm ((strncmpEq_iff key l).mpr h))]
      exact ih key maxlen (fun x hx => hline x (List.mem_cons_of_mem _ hx))
        (fun x hx => hfit x (List.mem_cons_of_mem _ hx))

/-- C9 (amended: restricted to configuration data that is a sequence of
newline-terminated lines, each within the per-line bound and with its value
fitting the caller's buffer — a final fragment not terminated by a line feed
is not scanned, see the counterexample): config lookup returns the
remainder (after the key prefix) of the first line whose prefix equals the
caller-supplied key, and returns an empty value — never an error — when no
line matches or when the configuration resource cannot be opened. -/
theorem c9_config_lookup
    (lines : List (List Char)) (key : List Char) (maxlen : Nat) (s : List Char)
    (hline : ∀ l ∈ lines, l.length ≤ 125 ∧ cLF ∉ l ∧ cCR ∉ l)
    (hfit : ∀ l ∈ lines, l.length ≤ key.length + maxlen) :
    readKey true (joinLines lines) key maxlen = specConfigLookup lines key ∧
    readKey false s key maxlen = [] :=
  ⟨readKeyLoop_joined lines key maxlen hline hfit, rfl⟩

/-- C9 counterexample: a configuration stream `MODE=AP` with no trailing
newline.  Its only (unterminated) line has prefix `MODE=` and remainder
`AP`, yet the lookup returns the empty value: `readln` hits end-of-stream,
reports EOF, and the scan loop never examines the fragment. -/
theorem c9_counterexample :
    (("MODE=AP").toList).take (("MODE=").toList).length = ("MODE=").toList ∧
    readKey true (("MODE=AP").toList) (("MODE=").toList) 31 = [] ∧
    readKey true (("MODE=AP").toList) (("MODE=").toList) 31 ≠ ("AP").toList := by
  have hr : readlnAux (("MODE=AP").toList) 126 [] = ((("MODE=AP").toList), [], false) := by
    decide
  have hk : readKey true (("MODE=AP").toList) (("MODE=").toList) 31 = [] := by
    unfold readKey readKeyLoop
    rw [if_pos rfl, hr]
    rfl
  refine ⟨by decide, hk, ?_⟩
  rw [hk]
  decide

/-- Witness for `c9_config_lookup`: the same single line, now properly
newline-terminated, is found, and an unopenable resource yields empty. -/
theorem c9_witness :
    readKey true (joinLines [(("MODE=AP").toList)]) (("MODE=").toList) 31 =
      specConfigLookup [(("MODE=AP").toList)] (("MODE=").toList) ∧
    readKey false [] (("MODE=").toList) 31 = [] :=
  c9_config_lookup [(("MODE=AP").toList)] (("MODE=").toList) 31 []
    (by decide) (by decide)
